import Mathlib

/-!
Shallow embedding of `src/languageFeatures.ts` of pxt-monaco-typescript:
the adapter layer between the monaco editor host and the TypeScript
language-service worker.  Host-provided primitives (the document model's
`getPositionAt`, word extraction, timers) are modelled at their interface
boundary; service responses are inputs to the embedded functions.
-/

namespace LangFeatures

/-- A monaco position: 1-based line number and column
(`monaco.IPosition`). -/
structure Pos where
  lineNumber : Int
  column : Int
deriving DecidableEq, Repr

/-- A monaco range (`monaco.IRange` / `monaco.Range` as used here, where
the constructed ranges always have start before end on the same line). -/
structure IRange where
  startLineNumber : Int
  startColumn : Int
  endLineNumber : Int
  endColumn : Int
deriving DecidableEq, Repr

/-- A service text span `ts.TextSpan`: 0-based start offset and length. -/
structure TextSpan where
  start : Nat
  length : Nat
deriving DecidableEq, Repr

/-- Host document model `getPositionAt` (monaco): converts a 0-based
offset into a 1-based line/column position, counting line breaks in the
text before the offset.  Out-of-range offsets clamp to the end, as in
monaco. -/
def getPositionAt (content : String) (offset : Nat) : Pos :=
  let pre := content.data.take offset
  { lineNumber := (pre.countP (fun c => c == '\n')) + 1,
    column := (pre.reverse.takeWhile (fun c => c ≠ '\n')).length + 1 }

/-- Embeds `Adapter._textSpanToRange` (lines 64-70): converts a service span to a
host range by translating both endpoints through the document model. -/
def textSpanToRange (content : String) (span : TextSpan) : IRange :=
  let p1 := getPositionAt content span.start
  let p2 := getPositionAt content (span.start + span.length)
  { startLineNumber := p1.lineNumber, startColumn := p1.column,
    endLineNumber := p2.lineNumber, endColumn := p2.column }

/-- Embeds `ts.displayPartsToString` from the bundled TypeScript services
library (outside `src/`): concatenates the `text` of each display part;
an absent list yields the empty string.  Parts are carried as their text. -/
def displayPartsToString (parts : List String) : String :=
  String.join parts

/-- The whitespace characters JS `String.prototype.trim` strips, as far
as this adapter's line contents contain them. -/
def jsWhitespace (c : Char) : Bool :=
  c = ' ' || c = '\t' || c = '\n' || c = '\r'

/-- JS `String.prototype.trim` (host-side string primitive): strips
whitespace from both ends. -/
def jsTrim (s : String) : String :=
  String.mk (((s.data.dropWhile jsWhitespace).reverse.dropWhile jsWhitespace).reverse)

/- The `Kind` string constants (lines 646-675); only the ones the
embedded operations consult are listed, with source spellings. -/
namespace Kind

def keyword : String := "keyword"
def module : String := "module"
def «class» : String := "class"
def interface : String := "interface"
def enum : String := "enum"
def «variable» : String := "var"
def localVariable : String := "local var"
def function : String := "function"
def localFunction : String := "local function"
def memberFunction : String := "method"
def memberGetAccessor : String := "getter"
def memberSetAccessor : String := "setter"
def memberVariable : String := "property"
def callSignature : String := "call"
def indexSignature : String := "index"
def constSignature : String := "construct"
def primitiveType : String := "primitive type"
def constKind : String := "const"
def warning : String := "warning"

end Kind

/-- The host enumeration `monaco.languages.CompletionItemKind`, restricted
to the constructors `SuggestAdapter.convertKind` can produce. -/
inductive CompletionItemKind where
  | Keyword | Variable | Field | Function | Enum | Module | Class
  | Interface | File | Property
deriving DecidableEq, Repr

/-- Embeds `SuggestAdapter.convertKind` (lines 385-416): maps a service kind
string to a host completion-item kind, defaulting to `Property`. -/
def convertKind (kind : String) : CompletionItemKind :=
  if kind = Kind.primitiveType ∨ kind = Kind.keyword then .Keyword
  else if kind = Kind.variable ∨ kind = Kind.localVariable then .Variable
  else if kind = Kind.memberVariable ∨ kind = Kind.memberGetAccessor
      ∨ kind = Kind.memberSetAccessor then .Field
  else if kind = Kind.function ∨ kind = Kind.memberFunction
      ∨ kind = Kind.constSignature ∨ kind = Kind.callSignature
      ∨ kind = Kind.indexSignature then .Function
  else if kind = Kind.enum then .Enum
  else if kind = Kind.module then .Module
  else if kind = Kind.class then .Class
  else if kind = Kind.interface then .Interface
  else if kind = Kind.warning then .File
  else .Property

/-- A service fuzzy-search result `ts.NavigateToItem`; an absent
`containerName` is carried as the empty string, matching its JS
falsiness. -/
structure NavigateToItem where
  name : String
  kind : String
  kindModifiers : String
  containerName : String
  fileName : String
  textSpan : TextSpan
deriving DecidableEq, Repr

/-- One entry of a direct-completion response (`ts.CompletionEntry`). -/
structure CompletionEntry where
  name : String
  kind : String
  sortText : String
deriving DecidableEq, Repr

/-- A direct-completion response (`ts.CompletionInfo`); only the
`entries` field is consulted by the adapter. -/
structure CompletionInfo where
  entries : List CompletionEntry
deriving DecidableEq, Repr

/-- A host word-range record (`monaco.editor.IWordAtPosition`) as
returned by `model.getWordUntilPosition`. -/
structure WordInfo where
  word : String
  startColumn : Int
  endColumn : Int
deriving DecidableEq, Repr

/-- The host-derived request context of `provideCompletionItems`
(lines 254-272): the cursor position, the word up to the cursor, the
word ending just before that word's start column, and the rest of the
line after the cursor.  These come from the host editor model. -/
structure SuggestContext where
  uri : String
  position : Pos
  wordInfo : WordInfo
  prevWordInfo : WordInfo
  lineContentAfter : String
deriving DecidableEq, Repr

/-- Lines 269-272: the request is in a namespace-qualified context when
the word preceding the in-progress word is non-empty. -/
def isNamespace (ctx : SuggestContext) : Bool :=
  ctx.prevWordInfo.word != ""

/-- The `MyCompletionItem` record (lines 193-200 plus the inherited
`monaco.languages.CompletionItem` fields this adapter sets).  Fields the
source leaves `undefined` are `none`. -/
structure MyCompletionItem where
  uri : String
  position : Pos
  label : String
  name : String
  sortText : Option String
  filterText : Option String
  kind : CompletionItemKind
  containerName : Option String
  navigation : Option NavigateToItem
  skipCodeSnippet : Bool
  insertText : Option String
  range : Option IRange
  detail : Option String
  documentation : Option String
deriving DecidableEq, Repr

/-- Lines 322-332: the completion item built for one direct-completion
entry; no `range`, `filterText`, `insertText` or `containerName` is set. -/
def mkDirectItem (ctx : SuggestContext) (entry : CompletionEntry) : MyCompletionItem :=
  { uri := ctx.uri
    position := ctx.position
    label := entry.name
    name := entry.name
    sortText := some entry.sortText
    filterText := none
    kind := convertKind entry.kind
    containerName := none
    navigation := none
    skipCodeSnippet := jsTrim ctx.lineContentAfter != ""
    insertText := none
    range := none
    detail := none
    documentation := none }

/-- The `convert` closure for fuzzy symbol results (lines 279-301): the
label is container-qualified, insert/filter text is qualifier- or
container-prefixed, and the replacement range runs from the start of the
typed word (and, in a namespace context, additionally back across the
qualifier word and its `.` separator) to the cursor column. -/
def mkFuzzyItem (ctx : SuggestContext) (entry : NavigateToItem) : MyCompletionItem :=
  { uri := ctx.uri
    position := ctx.position
    label := if entry.containerName ≠ "" then entry.containerName ++ "." ++ entry.name else entry.name
    name := entry.name
    sortText := some entry.name
    filterText := some ((if isNamespace ctx then ctx.prevWordInfo.word ++ "."
        else if entry.containerName ≠ "" then entry.containerName ++ "." else "") ++ entry.name)
    kind := convertKind entry.kind
    containerName := some entry.containerName
    navigation := some entry
    skipCodeSnippet := jsTrim ctx.lineContentAfter != ""
    insertText := some ((if isNamespace ctx then ctx.prevWordInfo.word ++ "."
        else if entry.containerName ≠ "" then entry.containerName ++ "." else "") ++ entry.name)
    range := some { startLineNumber := ctx.position.lineNumber
                    startColumn := ctx.position.column - ctx.wordInfo.word.length
                      - (if isNamespace ctx then ctx.prevWordInfo.word.length + 1 else 0)
                    endLineNumber := ctx.position.lineNumber
                    endColumn := ctx.position.column }
    detail := none
    documentation := none }

/-- Lines 277-308: the fuzzy-symbol candidate list.  An absent or empty
navigation response yields `[]`; otherwise results are filtered to
function-kind symbols with non-empty kind modifiers and, in a namespace
context, to those whose container differs from the preceding word. -/
def fuzzySuggestions (ctx : SuggestContext) (navigation : List NavigateToItem) : List MyCompletionItem :=
  if navigation.length = 0 then []
  else
    (navigation.filter (fun item =>
        ((item.kind == Kind.function) && (item.kindModifiers != ""))
          && (if isNamespace ctx then item.containerName != ctx.prevWordInfo.word else true))).map
      (mkFuzzyItem ctx)

/-- Lines 320-332: the direct-completion candidate list, dropping every
entry whose name is in the exclusion map built in the constructor
(lines 216-234). -/
def exclusionList : List String :=
  ["from", "import", "delete", "with", "await", "try", "catch", "finally",
   "yield", "as", "async", "abstract", "any", "undefined", "throw",
   "symbol", "super", "require", "readonly"]

/-- Direct-completion candidates after exclusion filtering (lines
320-332). -/
def directSuggestions (ctx : SuggestContext) (info : CompletionInfo) : List MyCompletionItem :=
  (info.entries.filter (fun entry => !(exclusionList.contains entry.name))).map (mkDirectItem ctx)

/-- Embeds `SuggestAdapter.provideCompletionItems` (lines 253-338) as a function
of the request context and the two service responses: an absent
direct-completion response yields no list at all (lines 317-319); else
the merged list is the direct candidates followed by the fuzzy-symbol
candidates (lines 333-335, where `moreinfo` is always an array and hence
always concatenated). -/
def provideCompletionItems (ctx : SuggestContext) (info : Option CompletionInfo)
    (navigation : List NavigateToItem) : Option (List MyCompletionItem) :=
  match info with
  | none => none
  | some i => some (directSuggestions ctx i ++ fuzzySuggestions ctx navigation)

/-- One entry of the static `snippets` table (lines 19-47): a trigger
word, the body as a list of lines, and a description.  The source field
named like the trigger keyword is carried as `trigger`. -/
structure SnippetSource where
  trigger : String
  body : List String
  description : String
deriving DecidableEq, Repr

/-- The `snippets` table (lines 19-47) in its source order, with the
literal placeholder tokens intact. -/
def snippets : List SnippetSource :=
  [{ trigger := "for"
     body := ["for (let $\x7b1:index\x7d = 0; $\x7b1:index\x7d < 4; $\x7b1:index\x7d++) \x7b",
              "\t$0",
              "\x7d"]
     description := "For Loop" },
   { trigger := "if"
     body := ["if ($\x7b1:condition\x7d) \x7b",
              "\t$0",
              "\x7d"]
     description := "If Statement" },
   { trigger := "while"
     body := ["while ($\x7b1:condition\x7d) \x7b",
              "\t$0",
              "\x7d"]
     description := "While Statement" }]

/-- The `TypescriptSnippet` record (lines 202-206); the field named like
the trigger keyword in the source is carried as `trigger`. -/
structure TypescriptSnippet where
  trigger : String
  body : String
  description : Option String
deriving DecidableEq, Repr

/-- The `typescriptSnippets` list built in the `SuggestAdapter`
constructor (lines 236-246): each snippet's body lines joined with
newlines, in table order. -/
def typescriptSnippets : List TypescriptSnippet :=
  snippets.map (fun s =>
    { trigger := s.trigger
      body := String.intercalate "\n" s.body
      description := some s.description })

/-- The record `ts.CompletionEntryDetails` as consulted by the adapter. -/
structure CompletionEntryDetails where
  kind : String
  displayParts : List String
  documentation : List String
deriving DecidableEq, Repr

/-- The outcome of `resolveCompletionItem`: the returned item together
with whether a service request was issued to produce it. -/
structure ResolveOutcome where
  usedService : Bool
  item : MyCompletionItem
deriving DecidableEq, Repr

/-- Embeds `SuggestAdapter.resolveCompletionItem` (lines 340-383) as a function
of the item and, when the service is consulted, its response
(`getCompletionEntryDetailsAndSnippet`): `none` for an absent `values`
tuple, otherwise the optional details and the code snippet string.  A
label equal to a snippet trigger is resolved locally from the snippet
table (lines 345-354) with no service round-trip; otherwise the service
response is applied, with absent details leaving the item unchanged. -/
def resolveCompletionItem (myItem : MyCompletionItem)
    (serviceValues : Option (Option CompletionEntryDetails × String)) : ResolveOutcome :=
  match (typescriptSnippets.filter (fun snippet => snippet.trigger == myItem.label)).head? with
  | some entry =>
    { usedService := false
      item := { myItem with insertText := some entry.body, documentation := entry.description } }
  | none =>
    { usedService := true
      item :=
        match serviceValues with
        | none => myItem
        | some (none, _) => myItem
        | some (some details, codeSnippet) =>
          { myItem with
              kind := convertKind details.kind
              detail := some (displayPartsToString details.displayParts)
              documentation := some (displayPartsToString details.documentation)
              insertText := if ¬ myItem.skipCodeSnippet then some codeSnippet else none } }

/-- The record `ts.QuickInfo` as consulted by `provideHover`. -/
structure QuickInfo where
  displayParts : List String
  textSpan : TextSpan
deriving DecidableEq, Repr

/-- One parameter of a signature-help item
(`ts.SignatureHelpParameter`), as consulted by `provideHover`. -/
structure SignatureHelpParameter where
  displayParts : List String
  documentation : List String
deriving DecidableEq, Repr

/-- One overload of a signature-help response (`ts.SignatureHelpItem`),
restricted to the fields `provideHover` consults. -/
structure SignatureHelpItem where
  parameters : List SignatureHelpParameter
deriving DecidableEq, Repr

/-- A signature-help response (`ts.SignatureHelpItems`), restricted to
the fields `provideHover` consults. -/
structure SignatureHelpItems where
  items : List SignatureHelpItem
  applicableSpan : TextSpan
  argumentIndex : Nat
  argumentCount : Nat
deriving DecidableEq, Repr

/-- A hover result (`monaco.languages.Hover`). -/
structure Hover where
  range : IRange
  contents : List String
deriving DecidableEq, Repr

/-- JS `String.prototype.substr(start, length)` over the document text,
clamping at the ends as JS does; the result is kept as a character
list. -/
def jsSubstr (content : String) (start len : Nat) : List Char :=
  (content.data.drop start).take len

/-- JS `String.prototype.split(',')`: cuts at every comma, keeping empty
pieces, with `[""]` for the empty string, as JS does. -/
def splitOnComma : List Char → List (List Char)
  | [] => [[]]
  | c :: tl =>
    let r := splitOnComma tl
    if c = ',' then [] :: r else (c :: r.headD []) :: r.tail

/-- JS `String.prototype.indexOf`: the least index at which `pat` starts
in `s`.  When `pat` does not occur, JS yields `-1`; every use below
searches for a comma-split chunk of `s` itself, which always occurs, so
the not-found value (here `s.length`) is never produced. -/
def firstIndexOf (pat : List Char) : List Char → Nat
  | [] => 0
  | c :: tl => if pat.isPrefixOf (c :: tl) then 0 else firstIndexOf pat tl + 1

/-- Lines 505-510: when more than one argument is present, the hover
range is narrowed by splitting the applicable span's raw text on commas
and relocating the span at the first `indexOf` occurrence of the active
argument's chunk, with the chunk's length. -/
def narrowedParameterSpan (content : String) (applicableSpan : TextSpan)
    (argumentIndex : Nat) : TextSpan :=
  let parametersStr := jsSubstr content applicableSpan.start applicableSpan.length
  let parametersSplit := splitOnComma parametersStr
  let piece := parametersSplit.getD argumentIndex []
  { start := applicableSpan.start + firstIndexOf piece parametersStr
    length := piece.length }

/-- The `else if (info)` branch of `provideHover` (lines 516-522). -/
def quickInfoHover (content : String) (info : QuickInfo) : Hover :=
  { range := textSpanToRange content info.textSpan
    contents := [displayPartsToString info.displayParts] }

/-- Embeds `QuickInfoAdapter.provideHover` (lines 472-525) as a function of the
document text and the three concurrently fetched service responses.
Branch order as in the source: quick-info plus completion-details first;
else signature-help when it has a first item, returning a (possibly
narrowed) parameter hover only when that item has parameters and
otherwise falling through to no result; else quick-info alone; else no
result. -/
def provideHover (content : String) (info : Option QuickInfo)
    (signatureHelp : Option SignatureHelpItems)
    (completion : Option CompletionEntryDetails) : Option Hover :=
  match info, completion with
  | some i, some c =>
    let contents := displayPartsToString c.documentation
    let contents := if contents = "" then displayPartsToString i.displayParts else contents
    some { range := textSpanToRange content i.textSpan, contents := [contents] }
  | _, _ =>
    match signatureHelp with
    | some s =>
      match s.items.head? with
      | some item0 =>
        if item0.parameters.length > 0 then
          let activeParameter := s.argumentIndex
          let p := item0.parameters.getD activeParameter { displayParts := [], documentation := [] }
          let contents := displayPartsToString p.documentation
          let contents := if contents = "" then displayPartsToString p.displayParts else contents
          let parameterSpan :=
            if s.argumentCount > 1 then narrowedParameterSpan content s.applicableSpan s.argumentIndex
            else s.applicableSpan
          some { range := textSpanToRange content parameterSpan, contents := [contents] }
        else
          none
      | none =>
        match info with
        | some i => some (quickInfoHover content i)
        | none => none
    | none =>
      match info with
      | some i => some (quickInfoHover content i)
      | none => none

/-- The record `ts.NavigationBarItem` as consulted by the outline adapter: display
text, kind string, spans, and child items. -/
inductive NavigationBarItem where
  | mk (text : String) (kind : String) (spans : List TextSpan)
       (childItems : List NavigationBarItem)

/-- The display text of a navigation item. -/
def NavigationBarItem.text : NavigationBarItem → String
  | .mk t _ _ _ => t

/-- The child items of a navigation item. -/
def NavigationBarItem.childItems : NavigationBarItem → List NavigationBarItem
  | .mk _ _ _ c => c

/-- The host enumeration `monaco.languages.SymbolKind`, restricted to the values the outline
type table can produce. -/
inductive SymbolKind where
  | Module | Class | Enum | Interface | Method | Property | Variable | Function
deriving DecidableEq, Repr

/-- The `outlineTypeTable` (lines 677-691) as an association list in
source order (the duplicate `variable` assignment writes the same
value). -/
def outlineTypeTable : List (String × SymbolKind) :=
  [(Kind.module, .Module), (Kind.class, .Class), (Kind.enum, .Enum),
   (Kind.interface, .Interface), (Kind.memberFunction, .Method),
   (Kind.memberVariable, .Property), (Kind.memberGetAccessor, .Property),
   (Kind.memberSetAccessor, .Property), (Kind.variable, .Variable),
   (Kind.constKind, .Variable), (Kind.localVariable, .Variable),
   (Kind.function, .Function), (Kind.localFunction, .Function)]

/-- A flattened outline entry (`monaco.languages.SymbolInformation`). -/
structure SymbolInformation where
  name : String
  kind : SymbolKind
  uri : String
  range : IRange
  containerName : Option String
deriving DecidableEq, Repr

mutual

/-- The `convert` closure of `provideDocumentSymbols` (lines 619-637):
builds this item's symbol record, recursively converts the children into
the bucket first (passing this item's name as their container label),
and only then appends this item's own record. -/
def convertOutline (content : String) (uri : String) (containerLabel : Option String)
    (item : NavigationBarItem) (bucket : List SymbolInformation) : List SymbolInformation :=
  match item with
  | .mk text kind spans childItems =>
    let result : SymbolInformation :=
      { name := text
        kind := ((outlineTypeTable.lookup kind).getD .Variable)
        uri := uri
        range := textSpanToRange content (spans.headD { start := 0, length := 0 })
        containerName := containerLabel }
    let bucket1 :=
      if childItems.length > 0 then
        convertOutlineList content uri (some text) childItems bucket
      else bucket
    bucket1 ++ [result]

/-- The child loop of `convert` (lines 630-634): converts the items in
order, threading the shared bucket. -/
def convertOutlineList (content : String) (uri : String) (containerLabel : Option String)
    (items : List NavigationBarItem) (bucket : List SymbolInformation) : List SymbolInformation :=
  match items with
  | [] => bucket
  | x :: xs => convertOutlineList content uri containerLabel xs
      (convertOutline content uri containerLabel x bucket)

end

/-- Embeds `OutlineAdapter.provideDocumentSymbols` (lines 611-644) as a
function of the document text and the navigation-tree response: an
absent response yields no result; otherwise each root item is converted
with no container label into one shared result list. -/
def provideDocumentSymbols (content : String) (uri : String)
    (items : Option (List NavigationBarItem)) : Option (List SymbolInformation) :=
  match items with
  | none => none
  | some its => some (convertOutlineList content uri none its [])

mutual

/-- The spec-level flattening the code realises, for comparison with the
claim: a post-order walk (children before their parent) pairing each
item's text with its immediate parent's text as container. -/
def postorderFlatten (parentLabel : Option String) (item : NavigationBarItem) :
    List (String × Option String) :=
  match item with
  | .mk text _ _ childItems =>
    postorderFlattenList (some text) childItems ++ [(text, parentLabel)]

/-- Post-order flattening of a forest, in sibling order. -/
def postorderFlattenList (parentLabel : Option String) :
    List NavigationBarItem → List (String × Option String)
  | [] => []
  | x :: xs => postorderFlatten parentLabel x ++ postorderFlattenList parentLabel xs

end

/-- The debounce machinery of `onModelAdd` (lines 90-94): at most one
pending timer per document, holding its fire deadline and the document
state it would validate (the state current when it fires, i.e. as of the
latest change), plus the validations fired so far in order. -/
structure DebounceState (σ : Type) where
  pending : Option (Nat × σ)
  fired : List σ
deriving Repr

/-- One content-change event at time `e.1` with resulting document state
`e.2` (lines 91-94): a pending timer whose 500 ms deadline has already
been reached fires first (its `setTimeout` callback ran before this
event); otherwise `clearTimeout` cancels it.  Either way a fresh timer
with deadline `e.1 + quiet` is started. -/
def stepChange {σ : Type} (quiet : Nat) (st : DebounceState σ) (e : Nat × σ) : DebounceState σ :=
  match st.pending with
  | some (deadline, s) =>
    if deadline ≤ e.1 then
      { pending := some (e.1 + quiet, e.2), fired := st.fired ++ [s] }
    else
      { pending := some (e.1 + quiet, e.2), fired := st.fired }
  | none => { pending := some (e.1 + quiet, e.2), fired := st.fired }

/-- The validation passes triggered by a time-ordered sequence of
content-change events: run every change through the timer protocol, then
let the final pending timer fire undisturbed.  Each fired entry is the
document state `_doValidate` observes. -/
def runDebounce {σ : Type} (quiet : Nat) (events : List (Nat × σ)) : List σ :=
  let final := events.foldl (stepChange quiet) { pending := none, fired := [] }
  match final.pending with
  | some (_, s) => final.fired ++ [s]
  | none => final.fired

/-- The fixed quiet period of the debounce timer (line 93). -/
def debounceQuietMs : Nat := 500

/-- Checks that every pair of consecutive events is separated by less
than the quiet period (the second fires strictly before the first's
timer deadline). -/
def gapsBelow {σ : Type} (quiet : Nat) : List (Nat × σ) → Bool
  | [] => true
  | [_] => true
  | a :: b :: tl => decide (b.1 < a.1 + quiet) && gapsBelow quiet (b :: tl)

/-- An outward action performed while disposing the
diagnostics adapter. -/
inductive DiagEffect where
  | unsubscribe (tag : String)
  | setMarkers (uri : String) (markers : List String)
  | clearListener (uri : String)
deriving DecidableEq, Repr

/-- Whether an effect is a plain event-subscription release (no marker
publication, no timer manipulation). -/
def DiagEffect.isUnsubscribe : DiagEffect → Bool
  | .unsubscribe _ => true
  | _ => false

/-- The five disposables pushed by the `DiagnostcsAdapter` constructor
(lines 115-136), in push order. -/
inductive DisposableKind where
  | onDidCreateModelSub
  | onWillDisposeModelSub
  | onDidChangeModelLanguageSub
  | removeAllModels
  | onDidChangeDefaultsSub
deriving DecidableEq, Repr

/-- The adapter state `dispose` manipulates: the `_disposables` array
and the `_listener` map, the latter carried as the list of tracked
document URIs (each entry owning a content-change subscription and the
pending debounce timer). -/
structure DiagnostcsAdapterState where
  disposables : List DisposableKind
  listener : List String
deriving DecidableEq, Repr

/-- Embeds `onModelRemoved` (lines 106-113): retract the document's markers,
and if a listener entry is tracked for it, dispose it (releasing the
subscription and clearing any pending timer) and delete it from the
map. -/
def onModelRemoved (uri : String) (listener : List String) :
    List String × List DiagEffect :=
  (listener.erase uri,
   [DiagEffect.setMarkers uri []] ++
     (if listener.contains uri then [DiagEffect.clearListener uri] else []))

/-- Running one registered disposable (lines 115-136): the event
subscriptions unhook themselves; the fourth disposable (lines 122-128)
runs `onModelRemoved` over every currently open model. -/
def runDisposable (models : List String) (d : DisposableKind) (listener : List String) :
    List String × List DiagEffect :=
  match d with
  | .onDidCreateModelSub => (listener, [DiagEffect.unsubscribe "onDidCreateModel"])
  | .onWillDisposeModelSub => (listener, [DiagEffect.unsubscribe "onWillDisposeModel"])
  | .onDidChangeModelLanguageSub => (listener, [DiagEffect.unsubscribe "onDidChangeModelLanguage"])
  | .removeAllModels =>
    models.foldl
      (fun acc uri =>
        let step := onModelRemoved uri acc.1
        (step.1, acc.2 ++ step.2))
      (listener, [])
  | .onDidChangeDefaultsSub => (listener, [DiagEffect.unsubscribe "defaults.onDidChange"])

/-- Embeds `DiagnostcsAdapter.dispose` (lines 141-144): run every registered
disposable in order, then clear the `_disposables` array.  Returns the
adapter state afterwards and the outward effects, given the
list of currently open models. -/
def dispose (models : List String) (s : DiagnostcsAdapterState) :
    DiagnostcsAdapterState × List DiagEffect :=
  let final := s.disposables.foldl
    (fun acc d =>
      let step := runDisposable models d acc.1
      (step.1, acc.2 ++ step.2))
    (s.listener, ([] : List DiagEffect))
  ({ disposables := [], listener := final.1 }, final.2)

/-! Concrete instances used to exercise the embedded operations. -/

/-- A completion request context outside any namespace qualifier. -/
def sampleCtx : SuggestContext :=
  { uri := "file:a.ts"
    position := { lineNumber := 1, column := 8 }
    wordInfo := { word := "foo", startColumn := 5, endColumn := 8 }
    prevWordInfo := { word := "", startColumn := 4, endColumn := 4 }
    lineContentAfter := "" }

/-- A completion request context in a namespace-qualified position
(`ns.fo|`). -/
def nsCtx : SuggestContext :=
  { uri := "file:a.ts"
    position := { lineNumber := 1, column := 10 }
    wordInfo := { word := "fo", startColumn := 8, endColumn := 10 }
    prevWordInfo := { word := "ns", startColumn := 5, endColumn := 7 }
    lineContentAfter := "" }

/-- A direct-completion entry whose name is not excluded. -/
def sampleFoo : CompletionEntry := { name := "foo", kind := "function", sortText := "1" }

/-- A direct-completion response holding one excluded keyword entry and
one ordinary entry. -/
def sampleInfo : CompletionInfo :=
  { entries := [{ name := "import", kind := "keyword", sortText := "0" }, sampleFoo] }

/-- A fuzzy-search result that passes the merge filter: function kind,
non-empty kind modifiers, container different from the `ns` qualifier. -/
def sampleNavItem : NavigateToItem :=
  { name := "bar", kind := "function", kindModifiers := "export",
    containerName := "other", fileName := "file:b.ts", textSpan := { start := 0, length := 3 } }

/-- The spec's example tree `Module{Class{method1, method2}}`. -/
def sampleTree : NavigationBarItem :=
  .mk "Module" "module" [{ start := 0, length := 10 }]
    [.mk "Class" "class" [{ start := 1, length := 8 }]
      [.mk "method1" "method" [{ start := 2, length := 3 }] [],
       .mk "method2" "method" [{ start := 3, length := 3 }] []]]

/-- A quick-info response for the sample hover requests. -/
def sampleQuickInfo : QuickInfo :=
  { displayParts := ["var x: number"], textSpan := { start := 0, length := 1 } }

/-- A signature-help response whose only overload has no parameters. -/
def sampleSigNoParams : SignatureHelpItems :=
  { items := [{ parameters := [] }]
    applicableSpan := { start := 0, length := 1 }
    argumentIndex := 0
    argumentCount := 0 }

/-- A signature-help response with two arguments whose display texts are
both `a`, over the call text `f(a,a)`; the active argument is the
second one. -/
def sampleSigTwoArgs : SignatureHelpItems :=
  { items := [{ parameters := [{ displayParts := ["a"], documentation := [] },
                               { displayParts := ["a"], documentation := [] }] }]
    applicableSpan := { start := 2, length := 3 }
    argumentIndex := 1
    argumentCount := 2 }

/-- A direct candidate whose label is the `for` snippet trigger. -/
def sampleForItem : MyCompletionItem :=
  mkDirectItem sampleCtx { name := "for", kind := "keyword", sortText := "0" }

/-- A diagnostics-adapter state as left by the constructor, tracking one
document. -/
def sampleDiagState : DiagnostcsAdapterState :=
  { disposables := [.onDidCreateModelSub, .onWillDisposeModelSub,
      .onDidChangeModelLanguageSub, .removeAllModels, .onDidChangeDefaultsSub]
    listener := ["file:a.ts"] }

/-!  C10.  For every completion request whose direct-completions
response is absent, no candidate list is returned at all: the fuzzy
candidates are discarded. -/

/-- C10: when the direct-completion response is `undefined`,
`provideCompletionItems` returns no list, discarding the concurrently
fetched fuzzy-symbol candidates. -/
theorem completion_absent_info_discards_fuzzy (ctx : SuggestContext)
    (navigation : List NavigateToItem) :
    provideCompletionItems ctx none navigation = none := rfl

/-!  C4.  Exclusion filtering of direct completions. -/

/-- C4: in every merged list, no direct candidate (the ones with no
recorded navigation item) has a name in the Exclusion Set, and every
direct entry whose name is not excluded yields a candidate that is kept
in the merged list. -/
theorem completion_exclusion_filtering (ctx : SuggestContext) (info : CompletionInfo)
    (navigation : List NavigateToItem) (res : List MyCompletionItem)
    (h : provideCompletionItems ctx (some info) navigation = some res) :
    (∀ c ∈ res, c.navigation = none → exclusionList.contains c.name = false)
    ∧ (∀ e ∈ info.entries, exclusionList.contains e.name = false →
        mkDirectItem ctx e ∈ res) := by
  have hres : directSuggestions ctx info ++ fuzzySuggestions ctx navigation = res := by
    simpa [provideCompletionItems] using h
  subst hres
  constructor
  · intro c hc hnav
    rcases List.mem_append.mp hc with hd | hf
    · simp only [directSuggestions, List.mem_map, List.mem_filter] at hd
      obtain ⟨e, ⟨_, hkeep⟩, rfl⟩ := hd
      simpa [mkDirectItem] using hkeep
    · simp only [fuzzySuggestions] at hf
      split at hf
      · simp at hf
      · simp only [List.mem_map] at hf
        obtain ⟨m, _, rfl⟩ := hf
        simp [mkFuzzyItem] at hnav
  · intro e he hex
    refine List.mem_append_left _ ?_
    simp only [directSuggestions, List.mem_map]
    exact ⟨e, List.mem_filter.mpr ⟨he, by rw [hex]; rfl⟩, rfl⟩

/-- C4 witness: in the sample request, the excluded keyword entry
`import` produces no candidate while the ordinary entry `foo` is kept. -/
theorem completion_exclusion_filtering_witness :
    exclusionList.contains "foo" = false
    ∧ mkDirectItem sampleCtx sampleFoo
        ∈ directSuggestions sampleCtx sampleInfo ++ fuzzySuggestions sampleCtx [] :=
  ⟨by decide,
   (completion_exclusion_filtering sampleCtx sampleInfo [] _ rfl).2 sampleFoo
     (by decide) (by decide)⟩

/-!  C5.  Filtering of fuzzy-symbol candidates. -/

/-- C5: every fuzzy-symbol candidate in a merged list stems from a
function-kind navigation item with non-empty kind modifiers, and in a
namespace-qualified context no such candidate's container equals the
preceding qualifier word. -/
theorem completion_fuzzy_filtering (ctx : SuggestContext) (info : CompletionInfo)
    (navigation : List NavigateToItem) (res : List MyCompletionItem)
    (h : provideCompletionItems ctx (some info) navigation = some res) :
    ∀ c ∈ res, ∀ n, c.navigation = some n →
      n.kind = Kind.function ∧ n.kindModifiers ≠ ""
      ∧ (isNamespace ctx = true → c.containerName ≠ some ctx.prevWordInfo.word) := by
  have hres : directSuggestions ctx info ++ fuzzySuggestions ctx navigation = res := by
    simpa [provideCompletionItems] using h
  subst hres
  intro c hc n hn
  rcases List.mem_append.mp hc with hd | hf
  · simp only [directSuggestions, List.mem_map] at hd
    obtain ⟨e, _, rfl⟩ := hd
    simp [mkDirectItem] at hn
  · simp only [fuzzySuggestions] at hf
    split at hf
    · simp at hf
    · simp only [List.mem_map, List.mem_filter] at hf
      obtain ⟨m, ⟨_, hkeep⟩, rfl⟩ := hf
      have hm : (mkFuzzyItem ctx m).navigation = some m := rfl
      rw [hn] at hm
      obtain rfl : n = m := by simpa using hm
      simp only [Bool.and_eq_true, beq_iff_eq, bne_iff_ne] at hkeep
      refine ⟨hkeep.1.1, hkeep.1.2, ?_⟩
      intro hns
      have hc := hkeep.2
      rw [if_pos hns] at hc
      simp only [bne_iff_ne] at hc
      simpa [mkFuzzyItem] using hc

/-- C5 witness: in the namespace-qualified sample request the surviving
fuzzy candidate is function-kind, has modifiers, and its container
`other` differs from the qualifier `ns`. -/
theorem completion_fuzzy_filtering_witness :
    sampleNavItem.kind = Kind.function ∧ sampleNavItem.kindModifiers ≠ ""
    ∧ (isNamespace nsCtx = true →
        (mkFuzzyItem nsCtx sampleNavItem).containerName ≠ some nsCtx.prevWordInfo.word) :=
  completion_fuzzy_filtering nsCtx sampleInfo [sampleNavItem] _ rfl
    (mkFuzzyItem nsCtx sampleNavItem) (by decide) sampleNavItem rfl

/-!  C2.  Completion-candidate replacement ranges. -/

/-- C2 counterexample: the claim says every candidate in the merged list
carries a range ending at the cursor; but in the sample request the
merged list is the single direct candidate for `foo`, and that candidate
carries no range at all (lines 322-331 set none). -/
theorem completion_range_invariant_cex :
    provideCompletionItems sampleCtx (some sampleInfo) []
      = some [mkDirectItem sampleCtx sampleFoo]
    ∧ (mkDirectItem sampleCtx sampleFoo).range = none := by
  constructor
  · decide
  · rfl

/-- C2 amended: only the fuzzy-symbol candidates carry an explicit
range; theirs ends exactly at the request cursor position and starts at
the beginning of the typed word, additionally extended backward across
the qualifier word and its separator in a namespace-qualified context;
direct candidates carry no explicit range (the host's default applies). -/
theorem completion_range_amended (ctx : SuggestContext) (info : CompletionInfo)
    (navigation : List NavigateToItem) (res : List MyCompletionItem)
    (h : provideCompletionItems ctx (some info) navigation = some res) :
    ∀ c ∈ res,
      (c.navigation = none → c.range = none)
      ∧ (c.navigation.isSome →
          c.range = some { startLineNumber := ctx.position.lineNumber
                           startColumn := ctx.position.column - ctx.wordInfo.word.length
                             - (if isNamespace ctx then ctx.prevWordInfo.word.length + 1 else 0)
                           endLineNumber := ctx.position.lineNumber
                           endColumn := ctx.position.column }) := by
  have hres : directSuggestions ctx info ++ fuzzySuggestions ctx navigation = res := by
    simpa [provideCompletionItems] using h
  subst hres
  intro c hc
  rcases List.mem_append.mp hc with hd | hf
  · simp only [directSuggestions, List.mem_map] at hd
    obtain ⟨e, _, rfl⟩ := hd
    exact ⟨fun _ => rfl, by simp [mkDirectItem]⟩
  · simp only [fuzzySuggestions] at hf
    split at hf
    · simp at hf
    · simp only [List.mem_map] at hf
      obtain ⟨m, _, rfl⟩ := hf
      exact ⟨by simp [mkFuzzyItem], fun _ => rfl⟩

/-- C2 witness: in the namespace-qualified sample request (`ns.fo|` with
the cursor at column 10) the fuzzy candidate's range spans columns 5-10,
covering the qualifier, the separator and the typed word and ending at
the cursor. -/
theorem completion_range_amended_witness :
    (mkFuzzyItem nsCtx sampleNavItem).range
      = some { startLineNumber := 1, startColumn := 5, endLineNumber := 1, endColumn := 10 } := by
  have h := (completion_range_amended nsCtx sampleInfo [sampleNavItem] _ rfl
    (mkFuzzyItem nsCtx sampleNavItem) (by decide)).2 (by decide)
  rw [h]
  decide

/-!  C1.  Outline flattening order. -/


/-- C1 counterexample: on the spec's own example tree the flattened
outline is `[method1, method2, Class, Module]` - each parent placed
after its children - not the claimed pre-order
`[Module, Class, method1, method2]`. -/
theorem outline_preorder_cex :
    (provideDocumentSymbols "0123456789ab" "file:a.ts" (some [sampleTree])).map
        (List.map (fun s => s.name))
      = some ["method1", "method2", "Class", "Module"]
    ∧ (["method1", "method2", "Class", "Module"] : List String)
      ≠ ["Module", "Class", "method1", "method2"] := by
  constructor
  · decide
  · decide

mutual

/-- Converting one item appends, after the given bucket, exactly the
post-order flattening of that item (names paired with their immediate
parent's name). -/
theorem convertOutline_map_nc (content uri : String) (lab : Option String)
    (item : NavigationBarItem) (bucket : List SymbolInformation) :
    (convertOutline content uri lab item bucket).map (fun s => (s.name, s.containerName))
      = bucket.map (fun s => (s.name, s.containerName)) ++ postorderFlatten lab item := by
  match item with
  | .mk text kind spans childItems =>
    rw [convertOutline, postorderFlatten]
    by_cases h : childItems.length > 0
    · rw [if_pos h]
      simp [convertOutlineList_map_nc content uri (some text) childItems bucket]
    · have hnil : childItems = [] := by
        cases childItems with
        | nil => rfl
        | cons a l => simp at h
      subst hnil
      simp [postorderFlattenList]

/-- Converting a sibling list appends, after the given bucket, the
concatenated post-order flattenings of the items in sibling order. -/
theorem convertOutlineList_map_nc (content uri : String) (lab : Option String)
    (items : List NavigationBarItem) (bucket : List SymbolInformation) :
    (convertOutlineList content uri lab items bucket).map (fun s => (s.name, s.containerName))
      = bucket.map (fun s => (s.name, s.containerName)) ++ postorderFlattenList lab items := by
  match items with
  | [] => rw [convertOutlineList, postorderFlattenList]; simp
  | x :: xs =>
    rw [convertOutlineList, postorderFlattenList,
      convertOutlineList_map_nc content uri lab xs (convertOutline content uri lab x bucket),
      convertOutline_map_nc content uri lab x bucket]
    simp

end

/-- C1 amended: the flattening the code performs is the post-order walk
of the returned tree - every parent follows its children, sibling order
is preserved, and every node's containerName is its immediate parent's
name (grandchildren receive their immediate parent's name, not the
root's); the claimed pre-order (parent first) does not hold. -/
theorem outline_postorder_flatten (content uri : String)
    (items : List NavigationBarItem) :
    (provideDocumentSymbols content uri (some items)).map
        (List.map (fun s => (s.name, s.containerName)))
      = some (postorderFlattenList none items) := by
  simp only [provideDocumentSymbols, Option.map_some']
  rw [convertOutlineList_map_nc content uri none items []]
  simp

/-!  C3.  Debounce coalescing. -/

/-- While every consecutive gap stays below the quiet period, no pending
timer ever fires during the fold: each change cancels the previous
not-yet-fired timer and starts a fresh one, so the machine ends with the
last event's timer pending and nothing fired. -/
theorem stepChange_foldl {σ : Type} (es : List (Nat × σ)) (t : Nat) (s : σ) (f : List σ)
    (h : gapsBelow debounceQuietMs ((t, s) :: es) = true) :
    es.foldl (stepChange debounceQuietMs) { pending := some (t + debounceQuietMs, s), fired := f }
      = { pending := some ((es.getLast?.getD (t, s)).1 + debounceQuietMs,
                           (es.getLast?.getD (t, s)).2),
          fired := f } := by
  induction es generalizing t s with
  | nil => simp
  | cons e2 es2 ih =>
    obtain ⟨t2, s2⟩ := e2
    rw [gapsBelow, Bool.and_eq_true, decide_eq_true_eq] at h
    rw [List.foldl_cons]
    have hstep : stepChange debounceQuietMs
        { pending := some (t + debounceQuietMs, s), fired := f } (t2, s2)
        = { pending := some (t2 + debounceQuietMs, s2), fired := f } := by
      rw [stepChange]
      simp [Nat.not_le.mpr h.1]
    rw [hstep, ih t2 s2 h.2]
    cases es2 with
    | nil => simp
    | cons e3 es3 =>
      cases hgl : (e3 :: es3).getLast? with
      | none => simp at hgl
      | some x => simp [hgl]

/-- C3: any non-empty run of content-change events in which every
consecutive pair is separated by less than the 500 ms quiet period
triggers exactly one validation pass, and that pass observes the
document state carried by the last event: every earlier timer is
cancelled before it can fire, and only the final timer fires
undisturbed. -/
theorem debounce_coalescing {σ : Type} (e : Nat × σ) (es : List (Nat × σ))
    (h : gapsBelow debounceQuietMs (e :: es) = true) :
    runDebounce debounceQuietMs (e :: es) = [((e :: es).getLast?.getD e).2] := by
  obtain ⟨t, s⟩ := e
  have hinit : stepChange debounceQuietMs { pending := none, fired := [] } (t, s)
      = { pending := some (t + debounceQuietMs, s), fired := [] } := rfl
  simp only [runDebounce, List.foldl_cons, hinit]
  rw [stepChange_foldl es t s [] h]
  cases es with
  | nil => simp
  | cons e2 es2 =>
    cases hgl : (e2 :: es2).getLast? with
    | none => simp at hgl
    | some x => simp [hgl]

/-- C3 witness: three changes at 0 ms, 100 ms and 400 ms (all gaps below
500 ms) produce exactly one validation pass, against the state written
by the last change. -/
theorem debounce_coalescing_witness :
    gapsBelow debounceQuietMs [(0, "s0"), (100, "s1"), (400, "s2")] = true
    ∧ runDebounce debounceQuietMs [(0, "s0"), (100, "s1"), (400, "s2")] = ["s2"] :=
  ⟨by decide,
   (debounce_coalescing (0, "s0") [(100, "s1"), (400, "s2")] (by decide)).trans (by decide)⟩

/-!  C6.  Hover precedence for quick-info. -/



/-- C6 counterexample: quick-info is present, completion-details is
absent, and signature-help does not apply (its only overload has zero
parameters), yet no hover is returned - the code falls through the
signature branch to the final bare return instead of reaching the
quick-info-alone branch. -/
theorem hover_quickinfo_blocked_cex :
    provideHover "f(x)" (some sampleQuickInfo) (some sampleSigNoParams) none = none := by
  decide

/-- C6 amended: with completion-details absent, quick-info's display
text and span are returned only when signature-help is absent or has no
first overload; when signature-help is present with a first overload
that has zero parameters, no hover is returned at all, even though
quick-info is present. -/
theorem hover_quickinfo_alone_amended (content : String) (i : QuickInfo)
    (signatureHelp : Option SignatureHelpItems) :
    ((signatureHelp = none ∨ ∃ s, signatureHelp = some s ∧ s.items = []) →
      provideHover content (some i) signatureHelp none = some (quickInfoHover content i))
    ∧ (∀ s item0, signatureHelp = some s → s.items.head? = some item0 →
        item0.parameters = [] →
        provideHover content (some i) signatureHelp none = none) := by
  constructor
  · rintro (rfl | ⟨s, rfl, hs⟩)
    · rfl
    · simp [provideHover, hs]
  · rintro s item0 rfl hhead hpar
    simp [provideHover, hhead, hpar]

/-- C6 witness: with no signature help at all, the sample quick-info's
text and span come back as the hover. -/
theorem hover_quickinfo_alone_amended_witness :
    provideHover "f(x)" (some sampleQuickInfo) none none
      = some { range := { startLineNumber := 1, startColumn := 1
                          endLineNumber := 1, endColumn := 2 }
               contents := ["var x: number"] } :=
  ((hover_quickinfo_alone_amended "f(x)" sampleQuickInfo none).1 (Or.inl rfl)).trans
    (by decide)

/-!  C7.  Hover range narrowing for the active argument. -/

/-- The boolean prefix test agrees with the prefix order on character
lists. -/
theorem isPrefixOf_eq_true_iff (l1 l2 : List Char) : l1.isPrefixOf l2 = true ↔ l1 <+: l2 := by
  induction l1 generalizing l2 with
  | nil => simp [List.isPrefixOf]
  | cons a t ih =>
    cases l2 with
    | nil => simp [List.isPrefixOf]
    | cons b t2 =>
      simp [List.isPrefixOf, Bool.and_eq_true, beq_iff_eq, ih, List.cons_prefix_cons]

/-- The function `firstIndexOf` behaves like JS `indexOf`: when the pattern occurs at
all, it occurs at the returned index and at no smaller index - i.e. the
earliest occurrence in the whole string, not any particular split
slot. -/
theorem firstIndexOf_earliest (pat : List Char) (s : List Char)
    (hocc : ∃ j, pat <+: s.drop j) :
    pat <+: s.drop (firstIndexOf pat s)
    ∧ ∀ j < firstIndexOf pat s, ¬ pat <+: s.drop j := by
  induction s with
  | nil =>
    obtain ⟨j, hj⟩ := hocc
    simp only [List.drop_nil] at hj
    exact ⟨by simpa [firstIndexOf] using hj, fun j hj' => absurd hj' (Nat.not_lt_zero j)⟩
  | cons c tl ih =>
    by_cases hpre : pat.isPrefixOf (c :: tl)
    · rw [firstIndexOf, if_pos hpre]
      exact ⟨by simpa using isPrefixOf_eq_true_iff _ _ |>.mp hpre,
        fun j hj => absurd hj (Nat.not_lt_zero j)⟩
    · rw [firstIndexOf, if_neg hpre]
      have hocc2 : ∃ j, pat <+: tl.drop j := by
        obtain ⟨j, hj⟩ := hocc
        cases j with
        | zero =>
          exact absurd (isPrefixOf_eq_true_iff _ _ |>.mpr (by simpa using hj)) hpre
        | succ j2 => exact ⟨j2, by simpa using hj⟩
      obtain ⟨h1, h2⟩ := ih hocc2
      refine ⟨by simpa using h1, ?_⟩
      intro j hj hp
      cases j with
      | zero => exact hpre (isPrefixOf_eq_true_iff _ _ |>.mpr (by simpa using hp))
      | succ j2 =>
        exact h2 j2 (by omega) (by simpa using hp)


/-- C7 counterexample: for `f(a,a)` with the second argument active, the
active argument's own comma-split slot is offset 4 (the second `a`,
columns 5-6), but the returned hover range covers columns 3-4 - the
earlier occurrence of the same text at offset 2 - because `indexOf`
finds the first occurrence in the raw substring. -/
theorem hover_narrowing_first_occurrence_cex :
    provideHover "f(a,a)" none (some sampleSigTwoArgs) none
      = some { range := { startLineNumber := 1, startColumn := 3
                          endLineNumber := 1, endColumn := 4 }
               contents := ["a"] }
    ∧ (some ({ range := { startLineNumber := 1, startColumn := 3
                          endLineNumber := 1, endColumn := 4 }
               contents := ["a"] } : Hover))
      ≠ some { range := textSpanToRange "f(a,a)" { start := 4, length := 1 }
               contents := ["a"] } := by
  exact ⟨by decide, by decide⟩

/-- C7 amended: when hover is answered via signature-help with more than
one argument, the returned range is the applicable span relocated to the
first occurrence of the active argument's comma-split chunk within the
span's raw substring (with the chunk's length); when that chunk's text
also occurs earlier in the substring, the narrowing therefore lands on
that earliest occurrence, not on the chunk's own split slot. -/
theorem hover_narrowing_amended (content : String) (info : Option QuickInfo)
    (completion : Option CompletionEntryDetails) (s : SignatureHelpItems)
    (item0 : SignatureHelpItem)
    (hbranch : info = none ∨ completion = none)
    (hhead : s.items.head? = some item0)
    (hpar : 0 < item0.parameters.length)
    (hcount : 1 < s.argumentCount)
    (hocc : ∃ j, (splitOnComma (jsSubstr content s.applicableSpan.start s.applicableSpan.length)).getD s.argumentIndex []
        <+: (jsSubstr content s.applicableSpan.start s.applicableSpan.length).drop j) :
    (provideHover content info (some s) completion
      = some { range := textSpanToRange content
                 (narrowedParameterSpan content s.applicableSpan s.argumentIndex)
               contents := [
                 if displayPartsToString (item0.parameters.getD s.argumentIndex
                     { displayParts := [], documentation := [] }).documentation = ""
                 then displayPartsToString (item0.parameters.getD s.argumentIndex
                     { displayParts := [], documentation := [] }).displayParts
                 else displayPartsToString (item0.parameters.getD s.argumentIndex
                     { displayParts := [], documentation := [] }).documentation] })
    ∧ narrowedParameterSpan content s.applicableSpan s.argumentIndex
        = { start := s.applicableSpan.start
              + firstIndexOf ((splitOnComma (jsSubstr content s.applicableSpan.start s.applicableSpan.length)).getD s.argumentIndex [])
                  (jsSubstr content s.applicableSpan.start s.applicableSpan.length)
            length := ((splitOnComma (jsSubstr content s.applicableSpan.start s.applicableSpan.length)).getD s.argumentIndex []).length }
    ∧ ((splitOnComma (jsSubstr content s.applicableSpan.start s.applicableSpan.length)).getD s.argumentIndex []
        <+: (jsSubstr content s.applicableSpan.start s.applicableSpan.length).drop
          (firstIndexOf ((splitOnComma (jsSubstr content s.applicableSpan.start s.applicableSpan.length)).getD s.argumentIndex [])
            (jsSubstr content s.applicableSpan.start s.applicableSpan.length)))
    ∧ ∀ j < firstIndexOf ((splitOnComma (jsSubstr content s.applicableSpan.start s.applicableSpan.length)).getD s.argumentIndex [])
          (jsSubstr content s.applicableSpan.start s.applicableSpan.length),
        ¬ (splitOnComma (jsSubstr content s.applicableSpan.start s.applicableSpan.length)).getD s.argumentIndex []
          <+: (jsSubstr content s.applicableSpan.start s.applicableSpan.length).drop j := by
  obtain ⟨hmin1, hmin2⟩ := firstIndexOf_earliest _ _ hocc
  refine ⟨?_, rfl, hmin1, hmin2⟩
  rcases hbranch with rfl | rfl
  · simp [provideHover, hhead, hpar, hcount]
  · cases info with
    | none => simp [provideHover, hhead, hpar, hcount]
    | some i => simp [provideHover, hhead, hpar, hcount]

/-- C7 witness: on `f(a,a)` with the second argument active, the
narrowed span lands at offset 2 with length 1 - the first `a` - and the
hover carries that range. -/
theorem hover_narrowing_amended_witness :
    provideHover "f(a,a)" none (some sampleSigTwoArgs) none
      = some { range := { startLineNumber := 1, startColumn := 3
                          endLineNumber := 1, endColumn := 4 }
               contents := ["a"] }
    ∧ narrowedParameterSpan "f(a,a)" { start := 2, length := 3 } 1
      = { start := 2, length := 1 } := by
  have h := hover_narrowing_amended "f(a,a)" none none sampleSigTwoArgs
    { parameters := [{ displayParts := ["a"], documentation := [] },
                     { displayParts := ["a"], documentation := [] }] }
    (Or.inl rfl) rfl (by decide) (by decide) ⟨0, by decide⟩
  exact ⟨h.1.trans (by decide), (h.2.1).trans (by decide)⟩

/-!  C8.  Snippet-local completion resolution. -/


/-- C8: a candidate whose label equals a snippet trigger exactly is
resolved locally - the literal snippet body (placeholders intact, lines
joined by newlines) becomes the insert text and the description the
documentation, with no service request; for any other candidate a
service request is made, and an absent response or absent details leave
the candidate unchanged. -/
theorem resolve_snippet_local (item : MyCompletionItem)
    (serviceValues : Option (Option CompletionEntryDetails × String)) :
    (∀ s ∈ typescriptSnippets, item.label = s.trigger →
      resolveCompletionItem item serviceValues
        = { usedService := false
            item := { item with insertText := some s.body, documentation := s.description } })
    ∧ ((∀ s ∈ typescriptSnippets, item.label ≠ s.trigger) →
        (resolveCompletionItem item serviceValues).usedService = true)
    ∧ ((∀ s ∈ typescriptSnippets, item.label ≠ s.trigger) →
        (serviceValues = none ∨ serviceValues.map Prod.fst = some none) →
        (resolveCompletionItem item serviceValues).item = item) := by
  refine ⟨?_, ?_, ?_⟩
  · intro s hs hl
    simp only [typescriptSnippets, snippets, List.map, List.mem_cons, List.not_mem_nil,
      or_false] at hs
    rcases hs with hA | hA | hA <;>
      · have hhead : (typescriptSnippets.filter
            (fun snippet => snippet.trigger == item.label)).head? = some s := by
          rw [hA] at hl ⊢
          rw [hl]
          decide
        simp only [resolveCompletionItem, hhead]
  · intro hnone
    have hf : (typescriptSnippets.filter (fun snippet => snippet.trigger == item.label)) = [] := by
      refine List.filter_eq_nil_iff.mpr ?_
      intro a ha
      simp only [beq_iff_eq]
      exact fun h => hnone a ha h.symm
    simp [resolveCompletionItem, hf]
  · intro hnone hsv
    have hf : (typescriptSnippets.filter (fun snippet => snippet.trigger == item.label)) = [] := by
      refine List.filter_eq_nil_iff.mpr ?_
      intro a ha
      simp only [beq_iff_eq]
      exact fun h => hnone a ha h.symm
    rcases hsv with rfl | hmap
    · simp [resolveCompletionItem, hf]
    · cases serviceValues with
      | none => simp [resolveCompletionItem, hf]
      | some p =>
        obtain ⟨p1, p2⟩ := p
        simp only [Option.map_some', Option.some.injEq] at hmap
        subst hmap
        simp [resolveCompletionItem, hf]

/-- C8 witness: resolving the `for` candidate fills in the literal
3-line loop template with its placeholder tokens and the description,
without any service round-trip, even when no service response exists. -/
theorem resolve_snippet_local_witness :
    resolveCompletionItem sampleForItem none
      = { usedService := false
          item := { sampleForItem with
            insertText := some "for (let $\x7b1:index\x7d = 0; $\x7b1:index\x7d < 4; $\x7b1:index\x7d++) \x7b\n\t$0\n\x7d"
            documentation := some "For Loop" } } := by
  have h := (resolve_snippet_local sampleForItem none).1
    { trigger := "for"
      body := "for (let $\x7b1:index\x7d = 0; $\x7b1:index\x7d < 4; $\x7b1:index\x7d++) \x7b\n\t$0\n\x7d"
      description := some "For Loop" }
    (by decide) rfl
  exact h.trans (by decide)

/-!  C9.  Disposal idempotence of the diagnostics adapter. -/


/-- C9: disposing twice has no effect beyond the first call - the second
`dispose` finds the disposables array empty, changes nothing and
produces no effect (no marker publication, no timer manipulation); and
disposing with no open documents performs nothing beyond releasing the
event subscriptions. -/
theorem dispose_idempotent (models : List String) (s : DiagnostcsAdapterState) :
    dispose models (dispose models s).1 = ((dispose models s).1, [])
    ∧ (models = [] → ∀ e ∈ (dispose models s).2, e.isUnsubscribe = true) := by
  constructor
  · have hfst : (dispose models s).1
        = { disposables := [], listener := (dispose models s).1.listener } := rfl
    rw [hfst]
    rfl
  · rintro rfl
    have main : ∀ (ds : List DisposableKind) (acc : List String × List DiagEffect),
        (∀ e ∈ acc.2, e.isUnsubscribe = true) →
        ∀ e ∈ (ds.foldl
          (fun acc d =>
            let step := runDisposable [] d acc.1
            (step.1, acc.2 ++ step.2)) acc).2, e.isUnsubscribe = true := by
      intro ds
      induction ds with
      | nil => exact fun acc hacc e he => hacc e he
      | cons d ds ih =>
        intro acc hacc e he
        rw [List.foldl_cons] at he
        refine ih _ ?_ e he
        intro e2 he2
        rcases List.mem_append.mp (by simpa using he2) with h | h
        · exact hacc e2 h
        · cases d <;> simp_all [runDisposable, DiagEffect.isUnsubscribe]
    intro e he
    exact main s.disposables (s.listener, []) (by simp) e (by simpa [dispose] using he)

/-- C9 witness: on the sample adapter, a second dispose returns the same
state and produces no effects; the sample effect produced by a
zero-document dispose is a plain subscription release. -/
theorem dispose_idempotent_witness :
    dispose [] (dispose [] sampleDiagState).1 = ((dispose [] sampleDiagState).1, [])
    ∧ DiagEffect.isUnsubscribe (.unsubscribe "onDidCreateModel") = true :=
  ⟨(dispose_idempotent [] sampleDiagState).1,
   (dispose_idempotent [] sampleDiagState).2 rfl _ (by decide)⟩

end LangFeatures
